import Mathlib

/-!
Verification of the neobench workload scripting language and evaluator
(`pkg/workload/parser.go`) and the signal handler (`SetupSignalHandler`).

Shallow embedding conventions:
* Go `int64` values are Lean `Int`; arithmetic that can overflow in Go is
  wrapped explicitly with `wrap64`.
* Go `float64` values are modelled as exact rationals `ℚ`.  The conversion
  `float64(iVal)` in `argAsNumber` is modelled as the exact cast `Int → ℚ`,
  which agrees with Go exactly when |i| ≤ 2^53.  Beyond that bound Go can
  round distinct int64s to the same float64, so `random`'s equal-values
  test may fire for distinct integers and return the first argument —
  still an integer in the requested range when lo < hi, so the range and
  no-panic conclusions below are insensitive to rounding; the one
  conclusion rounding could overturn (that `random(lo, hi)` panics
  whenever lo > hi) is stated only for magnitudes below 2^53, where the
  model provably coincides with Go.
* `math/rand.(*Rand)` is modelled by its contract: a deterministic function
  of the generator state.  `Int63n n` returns a value in `[0, n)` for
  `n > 0` and panics for `n ≤ 0`; `Float64` returns a value in `[0, 1)`.
  The concrete generator is a 64-bit LCG; only determinism, ranges and the
  panic condition are relied on.
* Go maps from `string` to `interface{}` are association lists; map
  assignment replaces the binding in place or appends a fresh one.
* Go panics are a distinct evaluation outcome (`EvalOut.panicked`),
  separate from returned `error` values (`EvalOut.err`).
-/

namespace Neobench

/-- Runtime values flowing through the evaluator: the Go code stores
`int64`, `float64` (and, in principle, other `interface{}` payloads such as
strings) in `ctx.Vars`. -/
inductive Value where
  | int (i : Int)
  | float (q : ℚ)
  | str (s : String)
deriving DecidableEq

def Value.isInt : Value → Bool
  | .int _ => true
  | _ => false

/-- The Go reflect type name used by `%T` in `argAsNumber`'s error. -/
def Value.typeName : Value → String
  | .int _ => "int64"
  | .float _ => "float64"
  | .str _ => "string"

/-- Two's-complement wrap-around of Go `int64` arithmetic. -/
def wrap64 (i : Int) : Int := (i + 2 ^ 63) % 2 ^ 64 - 2 ^ 63

/-- State of one `math/rand` generator (either `ctx.Rand` or the package
global used by `rand.Float64()`). -/
structure Rng where
  state : Nat
deriving DecidableEq

/-- One LCG step standing in for the `math/rand` source. -/
def lcg (s : Nat) : Nat := (6364136223846793005 * s + 1442695040888963407) % 2 ^ 64

/-- Models `(*Rand).Int63n(n)` for `n > 0`: a value in `[0, n)` plus the
advanced generator.  The `n ≤ 0` panic is handled at the call site. -/
def Rng.int63n (r : Rng) (n : Int) : Int × Rng :=
  ((lcg r.state : Int) % n, ⟨lcg r.state⟩)

/-- Models `rand.Float64()`: a value in `[0, 1)` plus the advanced state. -/
def Rng.float64 (r : Rng) : ℚ × Rng :=
  (((lcg r.state % 2 ^ 53 : Nat) : ℚ) / 2 ^ 53, ⟨lcg r.state⟩)

/-- The two generators an evaluation can touch: `ctx.Rand` and the
package-level `math/rand` global (`rand.Float64()` in the float branch of
`random`). -/
structure RandState where
  rand : Rng
  grand : Rng
deriving DecidableEq

/-- The expression AST of `parser.go`: `Expression{Kind, Payload}` with
kinds `nullExpr`, `intExpr`, `varExpr`, `callExpr` (payload `CallExpr{name,
args}`). -/
inductive Expression where
  | null
  | intE (i : Int)
  | varE (name : String)
  | callE (fname : String) (args : List Expression)

mutual
/-- `Expression.String()`. -/
def exprString : Expression → String
  | .intE i => toString i
  | .callE fname args => fname ++ "(" ++ String.intercalate ", " (argStrings args) ++ ")"
  | .varE v => ":" ++ v
  | .null => "err(<nil>)"

def argStrings : List Expression → List String
  | [] => []
  | e :: es => exprString e :: argStrings es
end

/-- `ctx.Vars`: a Go `map[string]interface{}`, as an association list. -/
abbrev VarMap := List (String × Value)

def VarMap.lookup : VarMap → String → Option Value
  | [], _ => none
  | (k, v) :: rest, key => if k = key then some v else VarMap.lookup rest key

/-- Go map assignment `m[key] = v`. -/
def VarMap.set : VarMap → String → Value → VarMap
  | [], key, v => [(key, v)]
  | (k, w) :: rest, key, v =>
      if k = key then (k, v) :: rest else (k, w) :: VarMap.set rest key v

def VarMap.containsKey (m : VarMap) (key : String) : Bool :=
  (VarMap.lookup m key).isSome

def VarMap.allInt (m : VarMap) : Bool :=
  m.all fun kv => kv.2.isInt

/-- Outcome of evaluating an expression: a returned value, a returned Go
`error`, or a Go panic. -/
inductive EvalOut where
  | ok (v : Value)
  | err (msg : String)
  | panicked (msg : String)
deriving DecidableEq

/-- The coercion helper `Number{isFloat, val, iVal}`. -/
structure Number where
  isFloat : Bool
  val : ℚ
  iVal : Int
deriving DecidableEq

/-- The type switch inside `CallExpr.argAsNumber`: `int64` sets both
fields (with `val = float64(iVal)`, modelled as the exact cast `Int → ℚ`,
which matches Go precisely for |iVal| ≤ 2^53 — theorems whose verdict
would change under Go's rounding above that bound carry a magnitude
hypothesis, see the header note), `float64` sets only `val` (Go leaves
`iVal` at its zero value). -/
def toNumber : Value → Option Number
  | .int i => some ⟨false, (i : ℚ), i⟩
  | .float q => some ⟨true, q, 0⟩
  | .str _ => none

/-- `CallExpr.Eval` wraps argument errors as `in <call-repr>: <err>`. -/
def inMsg (fname : String) (args : List Expression) (msg : String) : String :=
  "in " ++ exprString (.callE fname args) ++ ": " ++ msg

/-- `argAsNumber`'s type-mismatch message. -/
def typeMsg (arg : Expression) (v : Value) : String :=
  "expected int64 or float64, got " ++ exprString arg ++ " (which is " ++ v.typeName ++ ")"

/-- The `"random"` case body of `CallExpr.Eval` after both arguments have
been coerced.  Equal numeric values return the first operand with its
kind; otherwise the float branch draws from the package-global generator
(`rand.Float64()`, not `ctx.Rand`), and the integer branch calls
`ctx.Rand.Int63n(max - min)`, which panics when the (wrapped) difference
is not positive. -/
def randomBranch (a b : Number) (rs : RandState) : EvalOut × RandState :=
  if a.val = b.val then
    if a.isFloat then (.ok (.float a.val), rs)
    else (.ok (.int a.iVal), rs)
  else if a.isFloat || b.isFloat then
    let (u, g2) := rs.grand.float64
    (.ok (.float (a.val + u * (b.val - a.val))), ⟨rs.rand, g2⟩)
  else
    let bound := wrap64 (b.iVal - a.iVal)
    if bound ≤ 0 then (.panicked "invalid argument to Int63n", rs)
    else
      let (k, r2) := rs.rand.int63n bound
      (.ok (.int (wrap64 (a.iVal + k))), ⟨r2, rs.grand⟩)

/-- The `"*"` case body of `CallExpr.Eval` after coercion. -/
def mulBranch (a b : Number) (rs : RandState) : EvalOut × RandState :=
  if a.isFloat || b.isFloat then (.ok (.float (a.val * b.val)), rs)
  else (.ok (.int (wrap64 (a.iVal * b.iVal))), rs)

/-- The body of `CallExpr.argAsNumber` after the arity check, fused with
`CallExpr.Eval`'s wrapping of returned errors as `in <call-repr>: <err>`:
given the evaluation result of the `i`-th argument, run the coercion type
switch.  `.inl` carries the coerced `Number`, `.inr` a finished (error or
panic) outcome. -/
def coerceArg (fname : String) (args : List Expression) (arg : Expression)
    (res : EvalOut × RandState) : (Number × RandState) ⊕ (EvalOut × RandState) :=
  match res with
  | (.panicked m, rs1) => .inr (.panicked m, rs1)
  | (.err m, rs1) => .inr (.err (inMsg fname args m), rs1)
  | (.ok v, rs1) =>
    match toNumber v with
    | some a => .inl (a, rs1)
    | none => .inr (.err (inMsg fname args (typeMsg arg v)), rs1)

/-- `CallExpr.Eval` on an empty argument list: `argAsNumber(0)` reports
the arity failure for `random` and `*`; other names hit the default
branch without touching the arguments. -/
def callNoArgs (fname : String) (rs : RandState) : EvalOut × RandState :=
  if fname = "random" then
    (.err (inMsg fname [] "expected at least 1 arguments, got 0"), rs)
  else if fname = "*" then
    (.err (inMsg fname [] "expected at least 1 arguments, got 0"), rs)
  else
    (.err ("unknown function: " ++ exprString (.callE fname [])), rs)

/-- `CallExpr.Eval` on a one-argument list: for `random` and `*`,
`argAsNumber(0)` evaluates and coerces the argument (its result is
`res0`), then `argAsNumber(1)` reports the arity failure; other names hit
the default branch with the generators untouched (`res0` is unused: Go
never evaluates the argument there). -/
def callOneArg (fname : String) (a0 : Expression) (rs : RandState)
    (res0 : EvalOut × RandState) : EvalOut × RandState :=
  if fname = "random" then
    match coerceArg fname [a0] a0 res0 with
    | .inr done => done
    | .inl (_, rs1) => (.err (inMsg fname [a0] "expected at least 2 arguments, got 1"), rs1)
  else if fname = "*" then
    match coerceArg fname [a0] a0 res0 with
    | .inr done => done
    | .inl (_, rs1) => (.err (inMsg fname [a0] "expected at least 2 arguments, got 1"), rs1)
  else
    (.err ("unknown function: " ++ exprString (.callE fname [a0])), rs)

/-- `CallExpr.Eval` with two or more arguments: `argAsNumber(0)` has
produced `res0`; `argAsNumber(1)` evaluates the second argument from the
state left by the first (`eval1`); the coerced numbers feed
`randomBranch` / `mulBranch`.  Other names hit the default branch with
the generators untouched. -/
def callTwoArgs (fname : String) (a0 a1 : Expression) (rest1 : List Expression)
    (rs : RandState) (res0 : EvalOut × RandState)
    (eval1 : RandState → EvalOut × RandState) : EvalOut × RandState :=
  if fname = "random" then
    match coerceArg fname (a0 :: a1 :: rest1) a0 res0 with
    | .inr done => done
    | .inl (a, rs1) =>
      match coerceArg fname (a0 :: a1 :: rest1) a1 (eval1 rs1) with
      | .inr done => done
      | .inl (b, rs2) => randomBranch a b rs2
  else if fname = "*" then
    match coerceArg fname (a0 :: a1 :: rest1) a0 res0 with
    | .inr done => done
    | .inl (a, rs1) =>
      match coerceArg fname (a0 :: a1 :: rest1) a1 (eval1 rs1) with
      | .inr done => done
      | .inl (b, rs2) => mulBranch a b rs2
  else
    (.err ("unknown function: " ++ exprString (.callE fname (a0 :: a1 :: rest1))), rs)

/-- `Expression.Eval` / `CallExpr.Eval` / `argAsNumber` from `parser.go`,
with the generator states threaded explicitly.  `CallExpr.Eval`
implements only the `"random"` and `"*"` cases — each fetching its two
arguments through `argAsNumber` (the `len(f.args) <= i` arity checks
appear here as the split on the argument list, the coercion type switch
is `coerceArg`) — and every other name falls to the default branch
`unknown function: <call-repr>`. -/
def evalExpr : Expression → VarMap → RandState → EvalOut × RandState
  | .null, _, rs => (.err ("unknown expression: " ++ exprString .null), rs)
  | .intE i, _, rs => (.ok (.int i), rs)
  | .varE name, vars, rs =>
      match VarMap.lookup vars name with
      | some v => (.ok v, rs)
      | none => (.err ("this variable is not defined: " ++ name), rs)
  | .callE fname [], _, rs => callNoArgs fname rs
  | .callE fname [a0], vars, rs => callOneArg fname a0 rs (evalExpr a0 vars rs)
  | .callE fname (a0 :: a1 :: rest1), vars, rs =>
      callTwoArgs fname a0 a1 rest1 rs (evalExpr a0 vars rs)
        (fun rs1 => evalExpr a1 vars rs1)

/-! ## Commands and units of work

Go's `QueryCommand.Execute` allocates a fresh `map[string]interface{}` and
copies `ctx.Vars` into it, while `SetCommand.Execute` mutates `ctx.Vars`
in place.  To keep that aliasing structure observable, variable maps live
in an explicit heap of map cells: cell `0` is the map `ctx.Vars` points
to, and each executed query command allocates a fresh cell holding the
copy; a `Statement` stores the index of its params cell. -/

/-- `Statement{Query, Params}`, with `Params` as a heap reference. -/
structure Statement where
  Query : String
  ParamsRef : Nat
deriving DecidableEq

/-- `UnitOfWork{Readonly, Statements}`. -/
structure UnitOfWork where
  Readonly : Bool
  Statements : List Statement
deriving DecidableEq

/-- The mutable state during `ClientWorkload.Next`: the heap of map cells
(cell `0` is `ctx.Vars`), the generator states, and the unit of work being
assembled. -/
structure ExecState where
  heap : List VarMap
  rs : RandState
  uow : UnitOfWork
deriving DecidableEq

/-- The contents of the map `ctx.Vars` refers to. -/
def curVars (s : ExecState) : VarMap := s.heap.headD []

/-- The contents of the params map a statement refers to. -/
def resolveParams (s : ExecState) (st : Statement) : VarMap :=
  s.heap.getD st.ParamsRef []

/-- The two command forms `Parse` constructs: `QueryCommand{Query}` and
`SetCommand{VarName, Expression}`. -/
inductive Command where
  | query (q : String)
  | set (varName : String) (e : Expression)

/-- Outcome of `Command.Execute` / `ClientWorkload.Next`: the Go code
returns `(uow-so-far, error)`; panics are kept distinct. -/
inductive ExecOut where
  | ok (s : ExecState)
  | fail (msg : String) (s : ExecState)
  | panicked (msg : String) (s : ExecState)
deriving DecidableEq

def ExecOut.state : ExecOut → ExecState
  | .ok s => s
  | .fail _ s => s
  | .panicked _ s => s

/-- `QueryCommand.Execute` and `SetCommand.Execute`.  The query command
copies `ctx.Vars` into a freshly allocated map cell and appends the
statement; the set command evaluates its expression and assigns
`ctx.Vars[VarName]` in place (cell `0`). -/
def execCommand : Command → ExecState → ExecOut
  | .query q, s =>
      let params := curVars s
      let st : Statement := ⟨q, s.heap.length⟩
      .ok { s with
              heap := s.heap ++ [params],
              uow := { s.uow with Statements := s.uow.Statements ++ [st] } }
  | .set name e, s =>
      match evalExpr e (curVars s) s.rs with
      | (.ok v, rs2) =>
          .ok { s with heap := s.heap.set 0 ((curVars s).set name v), rs := rs2 }
      | (.err m, rs2) => .fail m { s with rs := rs2 }
      | (.panicked m, rs2) => .panicked m { s with rs := rs2 }

/-- The command loop of `ClientWorkload.Next`: execute in order, stopping
at the first error (or panic). -/
def runCommands : List Command → ExecState → ExecOut
  | [], s => .ok s
  | c :: cs, s =>
      match execCommand c s with
      | .ok s2 => runCommands cs s2
      | other => other

/-- The context `ClientWorkload.Next` builds: `Vars` holding only the
pre-defined `scale`, the client generator, and an empty unit of work. -/
def initState (scale : Int) (readonly : Bool) (rand grand : Rng) : ExecState :=
  ⟨[[("scale", Value.int scale)]], ⟨rand, grand⟩, ⟨readonly, []⟩⟩

/-- `ClientWorkload.Next`. -/
def clientNext (cmds : List Command) (scale : Int) (readonly : Bool)
    (rand grand : Rng) : ExecOut :=
  runCommands cmds (initState scale readonly rand grand)

/-- Everything `Next`'s caller can see of an outcome: error/panic message
and each statement's query text with its params map contents.  The
generator states are deliberately not part of the observation. -/
def observeState (s : ExecState) : List (String × VarMap) :=
  s.uow.Statements.map fun st => (st.Query, resolveParams s st)

def observe : ExecOut → Option String × Option String × List (String × VarMap)
  | .ok s => (none, none, observeState s)
  | .fail m s => (some m, none, observeState s)
  | .panicked m s => (none, some m, observeState s)

/-! ## The script parser

`Parse` drives a `text/scanner` through a pull-style `context` with
one-token lookahead.  The embedding works over the token stream the
scanner would produce (identifiers, integer literals, and single runes;
`raw` covers any other text chunk), so `context.Peek`/`Next` become list
operations: `Next` on an exhausted stream keeps returning EOF (`none`)
and sets `done`, exactly as the Go scanner does.  `fail` records the
first error and sets `done`; the `(at file:line:col)` suffix the Go code
appends to messages is not modelled.  The recursive parsing functions
take a fuel parameter and answer `none` when it runs out, so genuine
divergence of the Go code (a loop that consumes no input and never meets
its stop token) shows up as `none` for every fuel. -/

inductive Token where
  | ident (s : String)
  | int (n : Int)
  | sym (c : Char)
  | raw (s : String)
deriving DecidableEq

/-- `scanner.TokenText()` for a token (EOF yields the empty string). -/
def tokText : Option Token → String
  | none => ""
  | some (.ident s) => s
  | some (.int n) => toString n
  | some (.sym c) => String.singleton c
  | some (.raw s) => s

/-- `scanner.TokenString(tok)`, as used in error messages (approximate for
quoted runes). -/
def tokString : Option Token → String
  | none => "EOF"
  | some (.ident _) => "Ident"
  | some (.int _) => "Int"
  | some (.sym c) => "'" ++ String.singleton c ++ "'"
  | some (.raw s) => s

/-- The parser `context`: remaining tokens, the `done` flag and the first
recorded error. -/
structure PContext where
  toks : List Token
  done : Bool
  err : Option String
deriving DecidableEq

def PContext.mk0 (toks : List Token) : PContext := ⟨toks, false, none⟩

/-- `context.Next`: pop a token; at end of input return EOF and set
`done` (the scanner keeps answering EOF afterwards). -/
def pnext (c : PContext) : Option Token × PContext :=
  match c.toks with
  | [] => (none, { c with done := true })
  | t :: ts => (some t, { c with toks := ts })

/-- `context.Peek` (EOF is `none`). -/
def ppeek (c : PContext) : Option Token := c.toks.head?

/-- `context.fail`: set `done`, keep only the first error. -/
def pfail (c : PContext) (msg : String) : PContext :=
  { c with done := true, err := if c.err.isSome then c.err else some msg }

/-- `ident(c)`: expect an identifier token; on failure record the error
and hand back the token's text anyway, as the Go code does. -/
def pident (c : PContext) : String × PContext :=
  match pnext c with
  | (some (.ident s), c2) => (s, c2)
  | (tok, c2) => (tokText tok, pfail c2 ("expected identifier, got '" ++ tokString tok ++ "'"))

/-- `expect(c, rune)`. -/
def pexpect (c : PContext) (ch : Char) : PContext :=
  match pnext c with
  | (some (.sym c2), c3) =>
      if c2 = ch then c3
      else pfail c3 ("expected '" ++ String.singleton ch ++ "', got '" ++ tokString (some (.sym c2)) ++ "'")
  | (tok, c3) => pfail c3 ("expected '" ++ String.singleton ch ++ "', got '" ++ tokString tok ++ "'")

mutual
/-- `expr(c)`: parse a term; then handle at most one `*`.  No other
operator is consumed — `+`, `-`, `/` after a term are left in the
stream. -/
def exprF : Nat → PContext → Option (Expression × PContext)
  | 0, _ => none
  | n + 1, c => do
      let (lhs, c) ← termF n c
      match ppeek c with
      | some (.sym '*') =>
          let c := (pnext c).2
          let (rhs, c) ← termF n c
          pure (.callE "*" [lhs, rhs], c)
      | _ => pure (lhs, c)

/-- `term(c)`: just a factor. -/
def termF : Nat → PContext → Option (Expression × PContext)
  | 0, _ => none
  | n + 1, c => factorF n c

/-- `factor(c)`: integer literal, `-` integer, `:` variable, or
`ident ( args )`. -/
def factorF : Nat → PContext → Option (Expression × PContext)
  | 0, _ => none
  | n + 1, c =>
    match pnext c with
    | (some (.ident funcName), c) =>
        let c := pexpect c '('
        argsF n funcName [] c
    | (some (.int k), c) => some (.intE k, c)
    | (some (.sym '-'), c) =>
        match pnext c with
        | (some (.int k), c) => some (.intE (-1 * k), c)
        | (tok, c) =>
            some (.null, pfail c ("unexpected token, expected integer after minus sign: " ++ tokString tok))
    | (some (.sym ':'), c) =>
        let (v, c) := pident c
        some (.varE v, c)
    | (tok, c) =>
        some (.null, pfail c ("unexpected token, expected Expression: " ++ tokString tok))

/-- The argument loop inside `factor`: while the lookahead is not `)`,
expect a comma between arguments, parse an expression, and bail out with
the null expression once `done` is set. -/
def argsF : Nat → String → List Expression → PContext → Option (Expression × PContext)
  | 0, _, _, _ => none
  | n + 1, funcName, args, c =>
    match ppeek c with
    | some (.sym ')') =>
        some (.callE funcName args, (pnext c).2)
    | _ => do
        let c := if args.length > 0 then pexpect c ',' else c
        let (a, c) ← exprF n c
        let args := args ++ [a]
        if c.done then pure (.null, c)
        else argsF n funcName args c
end

/-- `metaCommand(c)`: only `\set` is implemented; any other meta-command
name records `unexpected meta command: '<name>'` and yields the nil
command (which Go appends to the command list, but `Parse` then returns
the recorded error, discarding the list). -/
def metaCommandF (n : Nat) (c : PContext) : Option (Option Command × PContext) :=
  let c := pexpect c '\\'
  let (cmd, c) := pident c
  if cmd = "set" then do
    let (varName, c) := pident c
    let (setExpr, c) ← exprF n c
    pure (some (.set varName setExpr), c)
  else
    some (none, pfail c ("unexpected meta command: '" ++ cmd ++ "'"))

/-- `command(c)`: accumulate token text strictly until a `;` token.  The
loop has no EOF case, so on a stream without `;` it spins on EOF forever —
here, until the fuel runs out. -/
def commandF : Nat → String → PContext → Option (Command × PContext)
  | 0, _, _ => none
  | n + 1, acc, c =>
    match pnext c with
    | (some (.sym ch), c2) =>
        if ch = ';' then some (.query acc, c2)
        else commandF n (acc ++ tokText (some (.sym ch))) c2
    | (tok, c2) => commandF n (acc ++ tokText tok) c2

/-- Result of `Parse`: the command list, or the first recorded error. -/
inductive ParseResult where
  | ok (cmds : List Command)
  | err (msg : String)

/-- The main loop of `Parse`: until `done` or EOF lookahead, dispatch on
the lookahead (`\` meta-command, newline skipped, anything else a query
command); afterwards return the recorded error if any. -/
def parseF : Nat → List Command → PContext → Option ParseResult
  | 0, _, _ => none
  | n + 1, cmds, c =>
    if c.done then
      some (match c.err with | some m => .err m | none => .ok cmds)
    else
      match ppeek c with
      | none => some (match c.err with | some m => .err m | none => .ok cmds)
      | some (.sym '\\') =>
          match metaCommandF n c with
          | none => none
          | some (cmdOpt, c) => parseF n (cmds ++ cmdOpt.toList) c
      | some (.sym '\n') => parseF n cmds (pnext c).2
      | some _ =>
          match commandF n "" c with
          | none => none
          | some (cmd, c) => parseF n (cmds ++ [cmd]) c

/-- `Parse(filename, script, scale, seed)`, over the token stream. -/
def goParse (fuel : Nat) (toks : List Token) : Option ParseResult :=
  parseF fuel [] (PContext.mk0 toks)

/-- Whether `pre` is a prefix of `l`. -/
def charsPrefix : List Char → List Char → Bool
  | [], _ => true
  | _ :: _, [] => false
  | a :: as, b :: bs => a = b && charsPrefix as bs

/-- Whether `pat` occurs inside `l`. -/
def charsContain (pat : List Char) : List Char → Bool
  | [] => charsPrefix pat []
  | b :: bs => charsPrefix pat (b :: bs) || charsContain pat bs

/-- Whether `pat` occurs as a substring of `s`. -/
def strContains (s pat : String) : Bool := charsContain pat.toList s.toList

/-! ## Lemmas about the query-reading loop -/

/-- The loop in `command` never stops on a stream without `;`: `Next`
keeps answering EOF, the loop keeps going, and only the fuel ends it. -/
lemma commandF_no_semi : ∀ (fuel : Nat) (acc : String) (c : PContext),
    Token.sym ';' ∉ c.toks → commandF fuel acc c = none := by
  intro fuel
  induction fuel with
  | zero => intro acc c _; rfl
  | succ n ih =>
    intro acc c h
    rcases hc : c.toks with _ | ⟨t, ts⟩
    · rw [commandF, show pnext c = (none, { c with done := true }) from by simp [pnext, hc]]
      exact ih _ _ (by simp [hc])
    · have hts : Token.sym ';' ∉ ts := by
        intro hm; exact h (by rw [hc]; exact List.mem_cons_of_mem _ hm)
      rw [commandF, show pnext c = (some t, { c with toks := ts }) from by simp [pnext, hc]]
      rcases t with s | k | ch | s
      · exact ih _ _ hts
      · exact ih _ _ hts
      · have hch : ch ≠ ';' := by
          intro he
          exact h (by rw [hc, he]; exact List.mem_cons_self _ _)
        show (if ch = ';' then _ else _) = none
        rw [if_neg hch]
        exact ih _ _ hts
      · exact ih _ _ hts

/-- With a `;` in the stream, the loop in `command` stops at the first
one, within `length + 1` steps. -/
lemma commandF_semi : ∀ (ts : List Token) (acc : String) (d : Bool) (e : Option String),
    Token.sym ';' ∈ ts → (commandF (ts.length + 1) acc ⟨ts, d, e⟩).isSome = true := by
  intro ts
  induction ts with
  | nil => intro acc d e h; cases h
  | cons t rest ih =>
    intro acc d e h
    simp only [List.length_cons]
    by_cases ht : t = Token.sym ';'
    · subst ht
      rw [commandF]
      simp [pnext]
    · have hrest : Token.sym ';' ∈ rest := by
        rcases List.mem_cons.mp h with h1 | h2
        · exact absurd h1.symm ht
        · exact h2
      rw [commandF, show pnext ⟨t :: rest, d, e⟩ = (some t, ⟨rest, d, e⟩) from by simp [pnext]]
      rcases t with s | k | ch | s
      · exact ih _ _ _ hrest
      · exact ih _ _ _ hrest
      · have hch : ch ≠ ';' := by intro he; exact ht (by rw [he])
        show (if ch = ';' then some (Command.query acc, (⟨rest, d, e⟩ : PContext))
              else commandF (rest.length + 1) (acc ++ tokText (some (Token.sym ch)))
                (⟨rest, d, e⟩ : PContext)).isSome = true
        rw [if_neg hch]
        exact ih _ _ _ hrest
      · exact ih _ _ _ hrest

/-- Token stream of the script line `\set x 1 + 2`. -/
def setPlusToks : List Token :=
  [.sym '\\', .ident "set", .ident "x", .int 1, .sym '+', .int 2, .sym '\n']

/-- On `\set x 1 + 2`, the expression parser consumes only the `1`; the
main loop then treats `+ 2` as the start of a query body and the
`command` loop searches for a `;` that never comes, so `Parse` diverges:
no amount of fuel produces an answer. -/
lemma goParse_setPlus (fuel : Nat) : goParse fuel setPlusToks = none := by
  match fuel with
  | 0 | 1 | 2 | 3 | 4 => rfl
  | n + 5 =>
    show parseF (n + 5) [] (PContext.mk0 setPlusToks) = none
    rw [show parseF (n + 5) [] (PContext.mk0 setPlusToks)
          = parseF (n + 4) [Command.set "x" (.intE 1)]
              ⟨[.sym '+', .int 2, .sym '\n'], false, none⟩ from by
      rw [parseF]
      simp [PContext.mk0, setPlusToks, ppeek, metaCommandF, pexpect, pident, pnext, pfail,
        exprF, termF, factorF]]
    rw [parseF]
    simp only [ppeek, List.head?]
    rw [commandF_no_semi (n + 3) "" _ (by decide)]
    rfl

/-- A fixed pair of generator states for concrete evaluations. -/
def rs0 : RandState := ⟨⟨0⟩, ⟨0⟩⟩

/-- Token stream of a query without a terminating `;`. -/
def returnOneToks : List Token := [Token.ident "RETURN", Token.int 1]

/-- `Parse` of a source whose final query lacks its `;` never returns. -/
lemma goParse_returnOne (fuel : Nat) : goParse fuel returnOneToks = none := by
  match fuel with
  | 0 => rfl
  | n + 1 =>
    show parseF (n + 1) [] (PContext.mk0 returnOneToks) = none
    rw [parseF]
    simp only [PContext.mk0, returnOneToks, ppeek, List.head?]
    rw [commandF_no_semi n "" _ (by decide)]
    rfl

/-! ## Claim theorems: the parser's expression grammar (C1) -/

/-- Claim C1: the spec's full precedence grammar is not what the code
implements.  `expr` parses a term and then at most one `*`: on the token
stream of `1 + 2` it returns the expression `1` and leaves `+ 2`
unconsumed, without recording any error; consequently `Parse` of the
script `\set x 1 + 2` treats the dangling `+ 2` as a query body, and the
query loop, never finding a `;`, diverges for every amount of fuel.  The
boundary laws `1 + 2 == 3`, `2 / 2 == 1.0`, `2 * 2 / 4 == 1.0` and
`2 - 1 * 2 + 1 == 1` are therefore unreachable: their sources do not even
parse. -/
theorem c1_expr_grammar_incomplete :
    exprF 100 (PContext.mk0 [Token.int 1, Token.sym '+', Token.int 2])
      = some (Expression.intE 1, ⟨[Token.sym '+', Token.int 2], false, none⟩) ∧
    (∀ fuel, goParse fuel setPlusToks = none) :=
  ⟨rfl, goParse_setPlus⟩

/-! ## Claim theorems: built-in functions (C2) -/

/-- Claim C2: of the listed built-ins, `CallExpr.Eval` implements only
`random` and `*`; `abs`, `double`, `int`, `greatest`, `least`, `pi`,
`sqrt`, `random_gaussian`, `random_exponential`, `debug` and the
operators `+`, `-`, `/` all fall through to the default branch and fail
with `unknown function: <call-repr>`. -/
theorem c2_only_random_and_mul :
    (evalExpr (.callE "abs" [.intE (-17)]) [] rs0).1 = .err "unknown function: abs(-17)" ∧
    (evalExpr (.callE "double" [.intE 2]) [] rs0).1 = .err "unknown function: double(2)" ∧
    (evalExpr (.callE "int" [.intE 7]) [] rs0).1 = .err "unknown function: int(7)" ∧
    (evalExpr (.callE "greatest" [.intE 1, .intE 2]) [] rs0).1
      = .err "unknown function: greatest(1, 2)" ∧
    (evalExpr (.callE "least" [.intE 1, .intE 2]) [] rs0).1
      = .err "unknown function: least(1, 2)" ∧
    (evalExpr (.callE "pi" []) [] rs0).1 = .err "unknown function: pi()" ∧
    (evalExpr (.callE "sqrt" [.intE 4]) [] rs0).1 = .err "unknown function: sqrt(4)" ∧
    (evalExpr (.callE "random_gaussian" [.intE 1, .intE 10, .intE 5]) [] rs0).1
      = .err "unknown function: random_gaussian(1, 10, 5)" ∧
    (evalExpr (.callE "random_exponential" [.intE 1, .intE 10, .intE 5]) [] rs0).1
      = .err "unknown function: random_exponential(1, 10, 5)" ∧
    (evalExpr (.callE "debug" [.intE 1337]) [] rs0).1 = .err "unknown function: debug(1337)" ∧
    (evalExpr (.callE "+" [.intE 1, .intE 2]) [] rs0).1 = .err "unknown function: +(1, 2)" ∧
    (evalExpr (.callE "-" [.intE 3, .intE 1]) [] rs0).1 = .err "unknown function: -(3, 1)" ∧
    (evalExpr (.callE "/" [.intE 2, .intE 2]) [] rs0).1 = .err "unknown function: /(2, 2)" ∧
    (evalExpr (.callE "*" [.intE 6, .intE 7]) [] rs0).1 = .ok (.int 42) ∧
    (evalExpr (.callE "random" [.intE 3, .intE 7]) [] rs0).1 = .ok (.int 6) :=
  ⟨rfl, rfl, rfl, rfl, rfl, rfl, rfl, rfl, rfl, rfl, rfl, rfl, rfl, rfl, rfl⟩

/-! ## Claim theorems: the sleep meta-command (C3) -/

/-- Token stream of the script line `\sleep 10 us`. -/
def sleepToks : List Token :=
  [.sym '\\', .ident "sleep", .int 10, .ident "us", .sym '\n']

/-- Claim C3: `metaCommand` implements only `\set`.  Parsing
`\sleep 10 us` fails with `unexpected meta command: 'sleep'` — not with
the sleep-unit error the spec requires, whose text
`must use 'us', 'ms', or 's'` appears nowhere in the message. -/
theorem c3_sleep_not_implemented :
    goParse 100 sleepToks = some (.err "unexpected meta command: 'sleep'") ∧
    strContains "unexpected meta command: 'sleep'" "must use 'us', 'ms', or 's'" = false :=
  ⟨rfl, rfl⟩

/-! ## Counterexamples for C7 and C10 -/

/-- Claim C10 counterexample: `random(lo, hi)` with `lo = -2^63 ≤ 1 = hi`
panics anyway: the Go subtraction `max - min` overflows int64, producing
the negative bound `1 - 2^63` for `Int63n`. -/
theorem c10_cex_overflow_panics :
    (evalExpr (.callE "random" [.intE (-(2 ^ 63)), .intE 1]) [] rs0).1
      = .panicked "invalid argument to Int63n" ∧
    (-(2 ^ 63) : Int) ≤ 1 :=
  ⟨rfl, by decide⟩

/-! ## Claim theorem: termination of Parse (C9) -/

/-- Claim C9: the query-reading loop of `command` consumes tokens
strictly until it meets `;` and does not stop at end of input.  With a
`;` somewhere in the stream it terminates within `length + 1` steps;
without one it answers nothing for every amount of fuel; and `Parse` of a
source whose final query lacks its `;` (here `RETURN 1`) never
returns. -/
theorem c9_command_terminates_iff_semicolon
    (ts : List Token) (acc : String) (d : Bool) (e : Option String) :
    (Token.sym ';' ∈ ts → (commandF (ts.length + 1) acc ⟨ts, d, e⟩).isSome = true) ∧
    (Token.sym ';' ∉ ts → ∀ fuel, commandF fuel acc ⟨ts, d, e⟩ = none) ∧
    (∀ fuel, goParse fuel returnOneToks = none) :=
  ⟨fun h => commandF_semi ts acc d e h,
   fun h fuel => commandF_no_semi fuel acc ⟨ts, d, e⟩ h,
   goParse_returnOne⟩

/-- Witness for C9 at concrete inputs: a stream with `;` terminates, one
without `;` yields nothing at fuel 7, and the unterminated `RETURN 1`
parse yields nothing at fuel 3. -/
theorem c9_witness :
    (commandF 2 "" ⟨[Token.sym ';'], false, none⟩).isSome = true ∧
    commandF 7 "" ⟨[Token.int 1], false, none⟩ = none ∧
    goParse 3 returnOneToks = none :=
  ⟨(c9_command_terminates_iff_semicolon [Token.sym ';'] "" false none).1 (by decide),
   (c9_command_terminates_iff_semicolon [Token.int 1] "" false none).2.1 (by decide) 7,
   (c9_command_terminates_iff_semicolon [] "" false none).2.2 3⟩

/-! ## The signal handler (`SetupSignalHandler`)

The handler goroutine runs a single `select` with two cases — receive one
signal from `sigCh`, or observe the stop channel closing — and then
returns; the `select` is not inside a loop.  `stopFunc` closes the stop
channel once and nils the captured variable so a second call is a no-op.
The model runs the goroutine over a sequence of events: it reacts to the
first one and ignores everything after (its body has finished). -/

structure SigState where
  stopClosed : Bool
  stopVarNil : Bool
  signalCount : Nat
  goroutineDone : Bool
  exited : Option Nat
deriving DecidableEq

def initSig : SigState := ⟨false, false, 0, false, none⟩

/-- The closure `stopFunc`: close `stopCh` unless the captured variable
was already nilled. -/
def stopFunc (s : SigState) : SigState :=
  if s.stopVarNil then s else { s with stopClosed := true, stopVarNil := true }

inductive SigEvent where
  | signal
  | externalStop
deriving DecidableEq

/-- One delivery to the handler goroutine.  If its `select` has already
run (`goroutineDone`), nothing happens.  Otherwise a signal bumps the
local `signalCount` and runs the `switch` (`1` → `stopFunc`, `2` →
`os.Exit(1)`), and an external close just lets the goroutine return; in
both cases the goroutine body then ends. -/
def handlerStep (s : SigState) (e : SigEvent) : SigState :=
  if s.goroutineDone then s
  else
    match e with
    | .signal =>
        let s1 := { s with signalCount := s.signalCount + 1 }
        let s2 :=
          if s1.signalCount = 1 then stopFunc s1
          else if s1.signalCount = 2 then { s1 with exited := some 1 }
          else s1
        { s2 with goroutineDone := true }
    | .externalStop => { s with goroutineDone := true }

def runHandler (events : List SigEvent) (s : SigState) : SigState :=
  events.foldl handlerStep s

lemma runHandler_done : ∀ (events : List SigEvent) (s : SigState),
    s.goroutineDone = true → runHandler events s = s := by
  intro events
  induction events with
  | nil => intro s _; rfl
  | cons e rest ih =>
    intro s h
    show runHandler rest (handlerStep s e) = s
    rw [show handlerStep s e = s from by simp [handlerStep, h]]
    exact ih s h

/-- Claim C8: the first signal does close the shutdown channel, closing
is idempotent, and the goroutine terminates on an external close — but a
second signal can never force exit: the `select` is not in a loop, so the
goroutine handles at most one event and `signalCount` never reaches 2;
`os.Exit(1)` is dead code and no event sequence whatsoever sets an exit
code. -/
theorem c8_second_signal_never_exits :
    (runHandler [.signal, .signal] initSig).stopClosed = true ∧
    (runHandler [.signal, .signal] initSig).exited = none ∧
    (∀ events, (runHandler events initSig).exited = none) ∧
    (∀ s, stopFunc (stopFunc s) = stopFunc s) ∧
    (runHandler [.externalStop] initSig).goroutineDone = true := by
  refine ⟨by decide, by decide, ?_, ?_, by decide⟩
  · intro events
    cases events with
    | nil => rfl
    | cons e rest =>
      show (runHandler rest (handlerStep initSig e)).exited = none
      cases e with
      | signal =>
        rw [runHandler_done rest _ (by decide)]
        decide
      | externalStop =>
        rw [runHandler_done rest _ (by decide)]
        decide
  · intro s
    by_cases h : s.stopVarNil = true
    · simp [stopFunc, h]
    · simp [stopFunc, h]

/-! ## Determinism of `ClientWorkload.Next` (C4)

From `Parse`, expressions can only produce `int64` values: literals are
integers, `random` on integer arguments returns an integer, and so does
`*`.  The float branch of `random` — the only place the package-global
generator is consulted — therefore never runs, and the unit of work is a
function of the commands, the scale and the client generator alone. -/

lemma VarMap.lookup_allInt : ∀ (m : VarMap) (k : String) (v : Value),
    VarMap.allInt m = true → VarMap.lookup m k = some v → v.isInt = true := by
  intro m
  induction m with
  | nil => intro k v _ h; cases h
  | cons kv rest ih =>
    intro k v hall hlk
    obtain ⟨k1, v1⟩ := kv
    rw [VarMap.allInt, List.all_cons, Bool.and_eq_true] at hall
    rw [VarMap.lookup] at hlk
    by_cases he : k1 = k
    · rw [if_pos he] at hlk; cases hlk; exact hall.1
    · rw [if_neg he] at hlk
      exact ih k v hall.2 hlk

lemma VarMap.set_allInt : ∀ (m : VarMap) (k : String) (v : Value),
    VarMap.allInt m = true → v.isInt = true → VarMap.allInt (VarMap.set m k v) = true := by
  intro m
  induction m with
  | nil => intro k v _ hv; simp [VarMap.set, VarMap.allInt, hv]
  | cons kv rest ih =>
    intro k v hall hv
    obtain ⟨k1, v1⟩ := kv
    rw [VarMap.allInt, List.all_cons, Bool.and_eq_true] at hall
    rw [VarMap.set]
    by_cases he : k1 = k
    · rw [if_pos he]
      simp [VarMap.allInt, List.all_cons, hv, hall.2]
    · rw [if_neg he]
      have h2 := ih k v hall.2 hv
      rw [VarMap.allInt, List.all_cons, Bool.and_eq_true]
      exact ⟨hall.1, h2⟩

/-- Unfolding `evalExpr` on an empty-argument call. -/
lemma evalExpr_call_nil (fname : String) (vars : VarMap) (rs : RandState) :
    evalExpr (.callE fname []) vars rs = callNoArgs fname rs := rfl

/-- Unfolding `evalExpr` on a one-argument call. -/
lemma evalExpr_call_one (fname : String) (a0 : Expression) (vars : VarMap) (rs : RandState) :
    evalExpr (.callE fname [a0]) vars rs = callOneArg fname a0 rs (evalExpr a0 vars rs) := by
  rw [evalExpr]

/-- Unfolding `evalExpr` on a call with two or more arguments. -/
lemma evalExpr_call_two (fname : String) (a0 a1 : Expression) (rest1 : List Expression)
    (vars : VarMap) (rs : RandState) :
    evalExpr (.callE fname (a0 :: a1 :: rest1)) vars rs =
      callTwoArgs fname a0 a1 rest1 rs (evalExpr a0 vars rs)
        (fun rs1 => evalExpr a1 vars rs1) := by
  rw [evalExpr]

/-- `callNoArgs` on a name that is neither `random` nor `*`. -/
lemma callNoArgs_unknown (fname : String) (rs : RandState)
    (h1 : fname ≠ "random") (h2 : fname ≠ "*") :
    callNoArgs fname rs
      = (.err ("unknown function: " ++ exprString (.callE fname [])), rs) := by
  rw [callNoArgs, if_neg h1, if_neg h2]

/-- `callOneArg` on a name that is neither `random` nor `*`. -/
lemma callOneArg_unknown (fname : String) (a0 : Expression) (rs : RandState)
    (res0 : EvalOut × RandState) (h1 : fname ≠ "random") (h2 : fname ≠ "*") :
    callOneArg fname a0 rs res0
      = (.err ("unknown function: " ++ exprString (.callE fname [a0])), rs) := by
  rw [callOneArg, if_neg h1, if_neg h2]

/-- `callTwoArgs` on a name that is neither `random` nor `*`. -/
lemma callTwoArgs_unknown (fname : String) (a0 a1 : Expression) (rest1 : List Expression)
    (rs : RandState) (res0 : EvalOut × RandState) (eval1 : RandState → EvalOut × RandState)
    (h1 : fname ≠ "random") (h2 : fname ≠ "*") :
    callTwoArgs fname a0 a1 rest1 rs res0 eval1
      = (.err ("unknown function: " ++ exprString (.callE fname (a0 :: a1 :: rest1))), rs) := by
  rw [callTwoArgs, if_neg h1, if_neg h2]

/-- `callTwoArgs` for `random` once the first argument coerced to an
integer: what remains is the second argument's evaluation and coercion
feeding `randomBranch`. -/
lemma callTwoArgs_random_int0 (a0 a1 : Expression) (rest1 : List Expression)
    (rs : RandState) (i0 : Int) (rs1 : RandState)
    (eval1 : RandState → EvalOut × RandState) :
    callTwoArgs "random" a0 a1 rest1 rs (.ok (.int i0), rs1) eval1 =
      (match coerceArg "random" (a0 :: a1 :: rest1) a1 (eval1 rs1) with
       | .inr done => done
       | .inl (b, rs2) => randomBranch ⟨false, (i0 : ℚ), i0⟩ b rs2) := rfl

/-- `callTwoArgs` for `*` once the first argument coerced to an
integer. -/
lemma callTwoArgs_mul_int0 (a0 a1 : Expression) (rest1 : List Expression)
    (rs : RandState) (i0 : Int) (rs1 : RandState)
    (eval1 : RandState → EvalOut × RandState) :
    callTwoArgs "*" a0 a1 rest1 rs (.ok (.int i0), rs1) eval1 =
      (match coerceArg "*" (a0 :: a1 :: rest1) a1 (eval1 rs1) with
       | .inr done => done
       | .inl (b, rs2) => mulBranch ⟨false, (i0 : ℚ), i0⟩ b rs2) := rfl

/-- On two integer `Number`s, `randomBranch` reads only `ctx.Rand` and
produces an integer (or panics); the package-global generator is never
consulted. -/
lemma randomBranch_grand_free (a b : Number) (r : Rng)
    (ha : a.isFloat = false) (hb : b.isFloat = false) :
    ∃ (out : EvalOut) (r2 : Rng),
      (∀ g : Rng, randomBranch a b ⟨r, g⟩ = (out, ⟨r2, g⟩)) ∧
      (∀ v, out = EvalOut.ok v → v.isInt = true) := by
  by_cases hv : a.val = b.val
  · refine ⟨.ok (.int a.iVal), r, fun g => ?_, fun v hveq => by cases hveq; rfl⟩
    simp [randomBranch, hv, ha]
  · by_cases hbd : wrap64 (b.iVal - a.iVal) ≤ 0
    · refine ⟨.panicked "invalid argument to Int63n", r,
        fun g => ?_, fun v hveq => nomatch hveq⟩
      simp [randomBranch, hv, ha, hb, hbd]
    · refine ⟨.ok (wrap64 (a.iVal + (lcg r.state : Int) % wrap64 (b.iVal - a.iVal)) |> .int),
        ⟨lcg r.state⟩, fun g => ?_, fun v hveq => by cases hveq; rfl⟩
      simp [randomBranch, hv, ha, hb, hbd, Rng.int63n]

/-- On two integer `Number`s, `mulBranch` is a pure integer product. -/
lemma mulBranch_int (a b : Number) (rs : RandState)
    (ha : a.isFloat = false) (hb : b.isFloat = false) :
    mulBranch a b rs = (.ok (.int (wrap64 (a.iVal * b.iVal))), rs) := by
  simp [mulBranch, ha, hb]


/-- Under an all-integer variable map, evaluation is independent of the
package-global generator: the outcome and the advance of the client
generator are functions of the expression, the variables and the client
generator alone, and every returned value is an integer. -/
lemma evalExpr_grand_free (e : Expression) (vars : VarMap) (r : Rng)
    (hall : VarMap.allInt vars = true) :
    ∃ (out : EvalOut) (r2 : Rng),
      (∀ g : Rng, evalExpr e vars ⟨r, g⟩ = (out, ⟨r2, g⟩)) ∧
      (∀ v, out = EvalOut.ok v → v.isInt = true) := by
  match e with
  | .null =>
    exact ⟨.err ("unknown expression: " ++ exprString .null), r,
      fun g => rfl, fun v hv => nomatch hv⟩
  | .intE i =>
    exact ⟨.ok (.int i), r, fun g => rfl, fun v hv => by cases hv; rfl⟩
  | .varE name =>
    rcases hlk : VarMap.lookup vars name with _ | v
    · exact ⟨.err ("this variable is not defined: " ++ name), r,
        fun g => by rw [evalExpr, hlk], fun v hv => nomatch hv⟩
    · exact ⟨.ok v, r, fun g => by rw [evalExpr, hlk],
        fun w hw => by cases hw; exact VarMap.lookup_allInt vars name v hall hlk⟩
  | .callE fname [] =>
    by_cases hrand : fname = "random"
    · subst hrand
      exact ⟨.err (inMsg "random" [] "expected at least 1 arguments, got 0"), r,
        fun g => rfl, fun v hv => nomatch hv⟩
    · by_cases hmul : fname = "*"
      · subst hmul
        exact ⟨.err (inMsg "*" [] "expected at least 1 arguments, got 0"), r,
          fun g => rfl, fun v hv => nomatch hv⟩
      · exact ⟨.err ("unknown function: " ++ exprString (.callE fname [])), r,
          fun g => by rw [evalExpr_call_nil, callNoArgs_unknown fname _ hrand hmul],
          fun v hv => nomatch hv⟩
  | .callE fname [a0] =>
    by_cases hrand : fname = "random"
    · subst hrand
      obtain ⟨out0, r1, h0, hint0⟩ := evalExpr_grand_free a0 vars r hall
      match out0 with
      | .panicked m =>
        exact ⟨.panicked m, r1,
          fun g => by rw [evalExpr_call_one, h0 g]; rfl, fun v hv => nomatch hv⟩
      | .err m =>
        exact ⟨.err (inMsg "random" [a0] m), r1,
          fun g => by rw [evalExpr_call_one, h0 g]; rfl, fun v hv => nomatch hv⟩
      | .ok v0 =>
        have hv0 : v0.isInt = true := hint0 v0 rfl
        match v0 with
        | .float q0 => exact absurd hv0 (by simp [Value.isInt])
        | .str s0 => exact absurd hv0 (by simp [Value.isInt])
        | .int i0 =>
          exact ⟨.err (inMsg "random" [a0] "expected at least 2 arguments, got 1"), r1,
            fun g => by rw [evalExpr_call_one, h0 g]; rfl, fun v hv => nomatch hv⟩
    · by_cases hmul : fname = "*"
      · subst hmul
        obtain ⟨out0, r1, h0, hint0⟩ := evalExpr_grand_free a0 vars r hall
        match out0 with
        | .panicked m =>
          exact ⟨.panicked m, r1,
            fun g => by rw [evalExpr_call_one, h0 g]; rfl, fun v hv => nomatch hv⟩
        | .err m =>
          exact ⟨.err (inMsg "*" [a0] m), r1,
            fun g => by rw [evalExpr_call_one, h0 g]; rfl, fun v hv => nomatch hv⟩
        | .ok v0 =>
          have hv0 : v0.isInt = true := hint0 v0 rfl
          match v0 with
          | .float q0 => exact absurd hv0 (by simp [Value.isInt])
          | .str s0 => exact absurd hv0 (by simp [Value.isInt])
          | .int i0 =>
            exact ⟨.err (inMsg "*" [a0] "expected at least 2 arguments, got 1"), r1,
              fun g => by rw [evalExpr_call_one, h0 g]; rfl, fun v hv => nomatch hv⟩
      · exact ⟨.err ("unknown function: " ++ exprString (.callE fname [a0])), r,
          fun g => by rw [evalExpr_call_one, callOneArg_unknown fname a0 _ _ hrand hmul],
          fun v hv => nomatch hv⟩
  | .callE fname (a0 :: a1 :: rest1) =>
    by_cases hrand : fname = "random"
    · subst hrand
      obtain ⟨out0, r1, h0, hint0⟩ := evalExpr_grand_free a0 vars r hall
      match out0 with
      | .panicked m =>
        exact ⟨.panicked m, r1,
          fun g => by rw [evalExpr_call_two, h0 g]; rfl, fun v hv => nomatch hv⟩
      | .err m =>
        exact ⟨.err (inMsg "random" (a0 :: a1 :: rest1) m), r1,
          fun g => by rw [evalExpr_call_two, h0 g]; rfl, fun v hv => nomatch hv⟩
      | .ok v0 =>
        have hv0 : v0.isInt = true := hint0 v0 rfl
        match v0 with
        | .float q0 => exact absurd hv0 (by simp [Value.isInt])
        | .str s0 => exact absurd hv0 (by simp [Value.isInt])
        | .int i0 =>
          obtain ⟨out1, r2, h1, hint1⟩ := evalExpr_grand_free a1 vars r1 hall
          match out1 with
          | .panicked m =>
            exact ⟨.panicked m, r2,
              fun g => by
                rw [evalExpr_call_two, h0 g, callTwoArgs_random_int0]
                simp only [h1 g]
                rfl,
              fun v hv => nomatch hv⟩
          | .err m =>
            exact ⟨.err (inMsg "random" (a0 :: a1 :: rest1) m), r2,
              fun g => by
                rw [evalExpr_call_two, h0 g, callTwoArgs_random_int0]
                simp only [h1 g]
                rfl,
              fun v hv => nomatch hv⟩
          | .ok v1 =>
            have hv1 : v1.isInt = true := hint1 v1 rfl
            match v1 with
            | .float q1 => exact absurd hv1 (by simp [Value.isInt])
            | .str s1 => exact absurd hv1 (by simp [Value.isInt])
            | .int i1 =>
              obtain ⟨out, r3, hbr, hint⟩ :=
                randomBranch_grand_free ⟨false, (i0 : ℚ), i0⟩ ⟨false, (i1 : ℚ), i1⟩ r2 rfl rfl
              exact ⟨out, r3,
                fun g => by
                  rw [evalExpr_call_two, h0 g, callTwoArgs_random_int0]
                  simp only [h1 g]
                  exact hbr g,
                hint⟩
    · by_cases hmul : fname = "*"
      · subst hmul
        obtain ⟨out0, r1, h0, hint0⟩ := evalExpr_grand_free a0 vars r hall
        match out0 with
        | .panicked m =>
          exact ⟨.panicked m, r1,
            fun g => by rw [evalExpr_call_two, h0 g]; rfl, fun v hv => nomatch hv⟩
        | .err m =>
          exact ⟨.err (inMsg "*" (a0 :: a1 :: rest1) m), r1,
            fun g => by rw [evalExpr_call_two, h0 g]; rfl, fun v hv => nomatch hv⟩
        | .ok v0 =>
          have hv0 : v0.isInt = true := hint0 v0 rfl
          match v0 with
          | .float q0 => exact absurd hv0 (by simp [Value.isInt])
          | .str s0 => exact absurd hv0 (by simp [Value.isInt])
          | .int i0 =>
            obtain ⟨out1, r2, h1, hint1⟩ := evalExpr_grand_free a1 vars r1 hall
            match out1 with
            | .panicked m =>
              exact ⟨.panicked m, r2,
                fun g => by
                  rw [evalExpr_call_two, h0 g, callTwoArgs_mul_int0]
                  simp only [h1 g]
                  rfl,
                fun v hv => nomatch hv⟩
            | .err m =>
              exact ⟨.err (inMsg "*" (a0 :: a1 :: rest1) m), r2,
                fun g => by
                  rw [evalExpr_call_two, h0 g, callTwoArgs_mul_int0]
                  simp only [h1 g]
                  rfl,
                fun v hv => nomatch hv⟩
            | .ok v1 =>
              have hv1 : v1.isInt = true := hint1 v1 rfl
              match v1 with
              | .float q1 => exact absurd hv1 (by simp [Value.isInt])
              | .str s1 => exact absurd hv1 (by simp [Value.isInt])
              | .int i1 =>
                exact ⟨.ok (.int (wrap64 (i0 * i1))), r2,
                  fun g => by
                    rw [evalExpr_call_two, h0 g, callTwoArgs_mul_int0]
                    simp only [h1 g]
                    exact mulBranch_int ⟨false, (i0 : ℚ), i0⟩ ⟨false, (i1 : ℚ), i1⟩ _ rfl rfl,
                  fun v hv => by cases hv; rfl⟩
      · exact ⟨.err ("unknown function: " ++ exprString (.callE fname (a0 :: a1 :: rest1))), r,
          fun g => by
            rw [evalExpr_call_two, callTwoArgs_unknown fname a0 a1 rest1 _ _ _ hrand hmul],
          fun v hv => nomatch hv⟩
termination_by sizeOf e
decreasing_by all_goals (simp_wf; omega)


/-- Replace the package-global generator component of a state. -/
def setGrand (s : ExecState) (g : Rng) : ExecState :=
  { s with rs := ⟨s.rs.rand, g⟩ }

/-- The constructor of an `ExecOut`, separated from its state. -/
inductive OutKind where
  | ok
  | fail (m : String)
  | panicked (m : String)
deriving DecidableEq

def mkOut : OutKind → ExecState → ExecOut
  | .ok, s => .ok s
  | .fail m, s => .fail m s
  | .panicked m, s => .panicked m s

/-- One command executed from states differing only in the package-global
generator: the outcome kind and the rest of the state agree, the global
generator is passed through untouched, and the variable map stays
all-integer. -/
lemma execCommand_grand (c : Command) (s : ExecState)
    (h : VarMap.allInt (curVars s) = true) :
    ∃ (k : OutKind) (t : ExecState),
      VarMap.allInt (curVars t) = true ∧
      ∀ g : Rng, execCommand c (setGrand s g) = mkOut k (setGrand t g) := by
  obtain ⟨heap, ⟨rand, grand⟩, uow⟩ := s
  match c with
  | .query q =>
    refine ⟨.ok,
      ⟨heap ++ [curVars ⟨heap, ⟨rand, grand⟩, uow⟩], ⟨rand, grand⟩,
        { uow with Statements := uow.Statements ++ [⟨q, heap.length⟩] }⟩,
      ?_, fun g => rfl⟩
    rcases heap with _ | ⟨m0, hrest⟩
    · rfl
    · simpa [curVars] using h
  | .set name e =>
    obtain ⟨out, r2, hg, hint⟩ :=
      evalExpr_grand_free e (curVars ⟨heap, ⟨rand, grand⟩, uow⟩) rand h
    match out with
    | .ok v =>
      have hv : v.isInt = true := hint v rfl
      refine ⟨.ok,
        ⟨heap.set 0 ((curVars ⟨heap, ⟨rand, grand⟩, uow⟩).set name v), ⟨r2, grand⟩, uow⟩,
        ?_, fun g => ?_⟩
      · rcases heap with _ | ⟨m0, hrest⟩
        · rfl
        · simpa [curVars] using
            VarMap.set_allInt m0 name v (by simpa [curVars] using h) hv
      · show execCommand (.set name e) ⟨heap, ⟨rand, g⟩, uow⟩ = _
        rw [execCommand]
        have : curVars ⟨heap, ⟨rand, g⟩, uow⟩ = curVars ⟨heap, ⟨rand, grand⟩, uow⟩ := rfl
        rw [this, hg g]
        rfl
    | .err m =>
      refine ⟨.fail m, ⟨heap, ⟨r2, grand⟩, uow⟩, by simpa [curVars] using h, fun g => ?_⟩
      show execCommand (.set name e) ⟨heap, ⟨rand, g⟩, uow⟩ = _
      rw [execCommand]
      have : curVars ⟨heap, ⟨rand, g⟩, uow⟩ = curVars ⟨heap, ⟨rand, grand⟩, uow⟩ := rfl
      rw [this, hg g]
      rfl
    | .panicked m =>
      refine ⟨.panicked m, ⟨heap, ⟨r2, grand⟩, uow⟩, by simpa [curVars] using h, fun g => ?_⟩
      show execCommand (.set name e) ⟨heap, ⟨rand, g⟩, uow⟩ = _
      rw [execCommand]
      have : curVars ⟨heap, ⟨rand, g⟩, uow⟩ = curVars ⟨heap, ⟨rand, grand⟩, uow⟩ := rfl
      rw [this, hg g]
      rfl

/-- The full command loop, from states differing only in the global
generator: same outcome kind, same final state up to the untouched global
generator. -/
lemma runCommands_grand (cmds : List Command) : ∀ (s : ExecState),
    VarMap.allInt (curVars s) = true →
    ∃ (k : OutKind) (t : ExecState),
      VarMap.allInt (curVars t) = true ∧
      ∀ g : Rng, runCommands cmds (setGrand s g) = mkOut k (setGrand t g) := by
  induction cmds with
  | nil => intro s h; exact ⟨.ok, s, h, fun g => rfl⟩
  | cons c cs ih =>
    intro s h
    obtain ⟨k0, t0, h0, hg0⟩ := execCommand_grand c s h
    match k0 with
    | .ok =>
      obtain ⟨k, t, ht, hgt⟩ := ih t0 h0
      refine ⟨k, t, ht, fun g => ?_⟩
      show (match execCommand c (setGrand s g) with
            | .ok s2 => runCommands cs s2
            | other => other) = mkOut k (setGrand t g)
      rw [hg0 g]
      exact hgt g
    | .fail m =>
      refine ⟨.fail m, t0, h0, fun g => ?_⟩
      show (match execCommand c (setGrand s g) with
            | .ok s2 => runCommands cs s2
            | other => other) = mkOut (.fail m) (setGrand t0 g)
      rw [hg0 g]
      rfl
    | .panicked m =>
      refine ⟨.panicked m, t0, h0, fun g => ?_⟩
      show (match execCommand c (setGrand s g) with
            | .ok s2 => runCommands cs s2
            | other => other) = mkOut (.panicked m) (setGrand t0 g)
      rw [hg0 g]
      rfl

/-- Observation ignores the generators. -/
lemma observe_mkOut_setGrand (k : OutKind) (t : ExecState) (g g' : Rng) :
    observe (mkOut k (setGrand t g)) = observe (mkOut k (setGrand t g')) := by
  match k with
  | .ok => rfl
  | .fail m => rfl
  | .panicked m => rfl

/-- Claim C4: `ClientWorkload.Next` is deterministic given the context:
for every command list, scale and client-generator seed, the observable
outcome — the error or panic message and every statement's query text and
params contents — does not depend on the state of the package-global
generator (the one non-client source `CallExpr.Eval` could consult, in
the float branch of `random`, which integer-only evaluation never
reaches).  Two runs from freshly seeded clients with the same seed
therefore produce identical units of work. -/
theorem c4_next_deterministic (cmds : List Command) (scale : Int) (ro : Bool)
    (rand g g' : Rng) :
    observe (clientNext cmds scale ro rand g) = observe (clientNext cmds scale ro rand g') := by
  have hall : VarMap.allInt (curVars (initState scale ro rand g')) = true := by
    simp [initState, curVars, VarMap.allInt, Value.isInt]
  obtain ⟨k, t, ht, hg⟩ := runCommands_grand cmds (initState scale ro rand g') hall
  have e1 : clientNext cmds scale ro rand g
      = mkOut k (setGrand t g) := by
    show runCommands cmds (initState scale ro rand g) = _
    have : initState scale ro rand g = setGrand (initState scale ro rand g') g := rfl
    rw [this, hg g]
  have e2 : clientNext cmds scale ro rand g'
      = mkOut k (setGrand t g') := by
    show runCommands cmds (initState scale ro rand g') = _
    have : initState scale ro rand g' = setGrand (initState scale ro rand g') g' := rfl
    rw [this, hg g']
  rw [e1, e2]
  exact observe_mkOut_setGrand k t g g'


/-! ## Params snapshots and the frame property (C5)

The well-formedness invariant of execution states: the heap has a cell
for `ctx.Vars` (index 0), and every statement's params reference points
at a properly allocated copy cell (index ≥ 1, in bounds). -/

def wfState (s : ExecState) : Prop :=
  0 < s.heap.length ∧
  ∀ st ∈ s.uow.Statements, 0 < st.ParamsRef ∧ st.ParamsRef < s.heap.length

instance (s : ExecState) : Decidable (wfState s) := by
  unfold wfState
  infer_instance

lemma getD_append_lt (l l2 : List VarMap) (i : Nat) (h : i < l.length) :
    (l ++ l2).getD i [] = l.getD i [] := by
  induction l generalizing i with
  | nil => cases h
  | cons x xs ih =>
    cases i with
    | zero => rfl
    | succ j => exact ih j (by simpa using h)

lemma getD_concat_self (l : List VarMap) (x : VarMap) :
    (l ++ [x]).getD l.length [] = x := by
  induction l with
  | nil => rfl
  | cons y ys ih => simp only [List.cons_append, List.length_cons, List.getD_cons_succ]; exact ih

lemma getD_set_zero (l : List VarMap) (x : VarMap) (i : Nat) (h : 0 < i) :
    (l.set 0 x).getD i [] = l.getD i [] := by
  cases l with
  | nil => rfl
  | cons m0 rest =>
    cases i with
    | zero => cases h
    | succ j => rfl

/-- One command preserves well-formedness, only grows the heap, never
rewrites an allocated copy cell (indices ≥ 1), and only appends
statements. -/
lemma execCommand_frame (c : Command) (s : ExecState) (hwf : wfState s) :
    wfState (execCommand c s).state ∧
    s.heap.length ≤ (execCommand c s).state.heap.length ∧
    (∀ i, 0 < i → i < s.heap.length →
      (execCommand c s).state.heap.getD i [] = s.heap.getD i []) ∧
    (∃ add, (execCommand c s).state.uow.Statements = s.uow.Statements ++ add) := by
  match c with
  | .query q =>
    refine ⟨⟨by simp [execCommand, ExecOut.state], ?_⟩,
      by simp [execCommand, ExecOut.state],
      fun i hi hilen => ?_, ⟨[⟨q, s.heap.length⟩], by simp [execCommand, ExecOut.state]⟩⟩
    · intro st hst
      simp only [execCommand, ExecOut.state, List.mem_append, List.mem_singleton] at hst ⊢
      rcases hst with hold | hnew
      · have := hwf.2 st hold
        simp only [List.length_append, List.length_singleton]
        omega
      · subst hnew
        refine ⟨hwf.1, ?_⟩
        show s.heap.length < (s.heap ++ [curVars s]).length
        simp
    · simp only [execCommand, ExecOut.state]
      exact getD_append_lt s.heap _ i hilen
  | .set name e =>
    rcases hx : evalExpr e (curVars s) s.rs with ⟨out, rs2⟩
    match out with
    | .ok v =>
      have hstate : (execCommand (.set name e) s).state
          = { s with heap := s.heap.set 0 ((curVars s).set name v), rs := rs2 } := by
        simp [execCommand, hx, ExecOut.state]
      refine ⟨⟨?_, ?_⟩, ?_, fun i hi hilen => ?_, ⟨[], by simp [hstate]⟩⟩
      · rw [hstate]; simpa using hwf.1
      · intro st hst
        rw [hstate] at hst ⊢
        have := hwf.2 st (by simpa using hst)
        simpa using this
      · rw [hstate]; simp
      · rw [hstate]
        exact getD_set_zero s.heap _ i hi
    | .err m =>
      have hstate : (execCommand (.set name e) s).state = { s with rs := rs2 } := by
        simp [execCommand, hx, ExecOut.state]
      refine ⟨⟨?_, ?_⟩, ?_, fun i _ _ => ?_, ⟨[], ?_⟩⟩
      · rw [hstate]; exact hwf.1
      · rw [hstate]; exact fun st hst => hwf.2 st hst
      · rw [hstate]
      · rw [hstate]
      · rw [hstate]; simp
    | .panicked m =>
      have hstate : (execCommand (.set name e) s).state = { s with rs := rs2 } := by
        simp [execCommand, hx, ExecOut.state]
      refine ⟨⟨?_, ?_⟩, ?_, fun i _ _ => ?_, ⟨[], ?_⟩⟩
      · rw [hstate]; exact hwf.1
      · rw [hstate]; exact fun st hst => hwf.2 st hst
      · rw [hstate]
      · rw [hstate]
      · rw [hstate]; simp

/-- The command loop preserves well-formedness, never rewrites an
allocated copy cell, and only appends statements. -/
lemma runCommands_frame (cmds : List Command) : ∀ (s : ExecState), wfState s →
    wfState (runCommands cmds s).state ∧
    s.heap.length ≤ (runCommands cmds s).state.heap.length ∧
    (∀ i, 0 < i → i < s.heap.length →
      (runCommands cmds s).state.heap.getD i [] = s.heap.getD i []) ∧
    (∃ add, (runCommands cmds s).state.uow.Statements = s.uow.Statements ++ add) := by
  induction cmds with
  | nil =>
    intro s hwf
    exact ⟨hwf, le_refl _, fun i _ _ => rfl, ⟨[], by simp [runCommands, ExecOut.state]⟩⟩
  | cons c cs ih =>
    intro s hwf
    obtain ⟨hwf1, hlen1, hstable1, add1, hadd1⟩ := execCommand_frame c s hwf
    rcases hx : execCommand c s with s2 | ⟨m, s2⟩ | ⟨m, s2⟩
    · have hs2 : s2 = (execCommand c s).state := by rw [hx]; rfl
      obtain ⟨hwf2, hlen2, hstable2, add2, hadd2⟩ := ih s2 (hs2 ▸ hwf1)
      have hrun : runCommands (c :: cs) s = runCommands cs s2 := by
        show (match execCommand c s with
              | .ok s2 => runCommands cs s2
              | other => other) = _
        rw [hx]
      refine ⟨by rw [hrun]; exact hwf2, ?_, fun i hi hilen => ?_, ?_⟩
      · rw [hrun]
        have h1 : s.heap.length ≤ s2.heap.length := by rw [hs2]; exact hlen1
        omega
      · have h1 : s.heap.length ≤ s2.heap.length := by rw [hs2]; exact hlen1
        rw [hrun, hstable2 i hi (by omega), hs2]
        exact hstable1 i hi hilen
      · refine ⟨add1 ++ add2, ?_⟩
        rw [hrun, hadd2, hs2, hadd1, List.append_assoc]
    · have hrun : runCommands (c :: cs) s = .fail m s2 := by
        show (match execCommand c s with
              | .ok s2 => runCommands cs s2
              | other => other) = _
        rw [hx]
      have hs2 : (runCommands (c :: cs) s).state = (execCommand c s).state := by
        rw [hrun, hx]
      rw [hs2]
      exact ⟨hwf1, hlen1, hstable1, ⟨add1, hadd1⟩⟩
    · have hrun : runCommands (c :: cs) s = .panicked m s2 := by
        show (match execCommand c s with
              | .ok s2 => runCommands cs s2
              | other => other) = _
        rw [hx]
      have hs2 : (runCommands (c :: cs) s).state = (execCommand c s).state := by
        rw [hrun, hx]
      rw [hs2]
      exact ⟨hwf1, hlen1, hstable1, ⟨add1, hadd1⟩⟩

/-- Claim C5: when a `QueryCommand` executes, the statement it appends
refers to a freshly allocated copy of `ctx.Vars` taken at that moment;
running any further commands — in particular any later `SetCommand`,
which writes only the `ctx.Vars` cell — leaves the params of that
statement and of every earlier statement unchanged. -/
theorem c5_query_snapshots_vars (s : ExecState) (q : String) (cmds : List Command)
    (hwf : wfState s) :
    ∃ (s1 : ExecState) (st : Statement),
      execCommand (.query q) s = .ok s1 ∧
      s1.uow.Statements = s.uow.Statements ++ [st] ∧
      resolveParams s1 st = curVars s ∧
      ∀ st2 ∈ s1.uow.Statements,
        resolveParams ((runCommands cmds s1).state) st2 = resolveParams s1 st2 := by
  refine ⟨_, ⟨q, s.heap.length⟩, rfl, rfl, ?_, ?_⟩
  · show (s.heap ++ [curVars s]).getD s.heap.length [] = curVars s
    exact getD_concat_self s.heap (curVars s)
  · intro st2 hst2
    obtain ⟨hwf1, _, _, _⟩ := execCommand_frame (.query q) s hwf
    have hwf1 : wfState (execCommand (.query q) s).state := hwf1
    obtain ⟨_, _, hstable, _⟩ := runCommands_frame cmds _ hwf1
    have hm := hwf1.2 st2 hst2
    exact hstable st2.ParamsRef hm.1 hm.2

/-- Witness for C5 at a concrete state: the initial context of a client
with scale 7, one earlier statement appended, then a `\set` overwriting
`scale` — the earlier statement's params still show the old value. -/
theorem c5_witness :
    wfState (initState 7 false ⟨0⟩ ⟨0⟩) ∧
    ∃ (s1 : ExecState) (st : Statement),
      execCommand (.query "RETURN 1") (initState 7 false ⟨0⟩ ⟨0⟩) = .ok s1 ∧
      s1.uow.Statements = (initState 7 false ⟨0⟩ ⟨0⟩).uow.Statements ++ [st] ∧
      resolveParams s1 st = curVars (initState 7 false ⟨0⟩ ⟨0⟩) ∧
      ∀ st2 ∈ s1.uow.Statements,
        resolveParams ((runCommands [.set "scale" (.intE 99)] s1).state) st2
          = resolveParams s1 st2 :=
  ⟨by decide,
   c5_query_snapshots_vars (initState 7 false ⟨0⟩ ⟨0⟩) "RETURN 1"
     [.set "scale" (.intE 99)] (by decide)⟩


/-! ## The pre-defined `scale` variable (C6) -/

/-- Map assignment never removes a key. -/
lemma VarMap.containsKey_set (m : VarMap) (k2 : String) (v : Value) (key : String)
    (h : VarMap.containsKey m key = true) :
    VarMap.containsKey (VarMap.set m k2 v) key = true := by
  induction m with
  | nil => simp [VarMap.containsKey, VarMap.lookup] at h
  | cons kv rest ih =>
    obtain ⟨k1, v1⟩ := kv
    rw [VarMap.set]
    by_cases he : k1 = k2
    · rw [if_pos he]
      rw [VarMap.containsKey, VarMap.lookup] at h ⊢
      by_cases hk : k1 = key
      · rw [if_pos hk]; rfl
      · rw [if_neg hk]; rw [if_neg hk] at h; exact h
    · rw [if_neg he]
      rw [VarMap.containsKey, VarMap.lookup] at h ⊢
      by_cases hk : k1 = key
      · rw [if_pos hk]; rfl
      · rw [if_neg hk]; rw [if_neg hk] at h
        exact ih h

/-- Invariant carried through the command loop: `ctx.Vars` contains
`scale`, and every appended statement's (in-bounds) params cell contains
`scale`. -/
def scaleInv (s : ExecState) : Prop :=
  VarMap.containsKey (curVars s) "scale" = true ∧
  ∀ st ∈ s.uow.Statements, st.ParamsRef < s.heap.length ∧
    VarMap.containsKey (s.heap.getD st.ParamsRef []) "scale" = true

lemma execCommand_scaleInv (c : Command) (s : ExecState) (hinv : scaleInv s) :
    scaleInv (execCommand c s).state := by
  have hne : s.heap ≠ [] := by
    intro hnil
    have h1 := hinv.1
    rw [show curVars s = [] from by simp [curVars, hnil]] at h1
    simp [VarMap.containsKey, VarMap.lookup] at h1
  obtain ⟨m0, hrest, hm0⟩ : ∃ m0 hrest, s.heap = m0 :: hrest := by
    rcases hh : s.heap with _ | ⟨m0, hrest⟩
    · exact absurd hh hne
    · exact ⟨m0, hrest, rfl⟩
  have hcur : curVars s = m0 := by simp [curVars, hm0]
  match c with
  | .query q =>
    constructor
    · show VarMap.containsKey ((s.heap ++ [curVars s]).headD []) "scale" = true
      rw [hm0]
      simpa [hcur] using hinv.1
    · intro st hst
      simp only [execCommand, ExecOut.state, List.mem_append, List.mem_singleton] at hst
      rcases hst with hold | hnew
      · have hi := hinv.2 st hold
        refine ⟨by simp [execCommand, ExecOut.state]; omega, ?_⟩
        show VarMap.containsKey ((s.heap ++ [curVars s]).getD st.ParamsRef []) "scale" = true
        rw [getD_append_lt s.heap _ _ hi.1]
        exact hi.2
      · subst hnew
        refine ⟨by simp [execCommand, ExecOut.state], ?_⟩
        show VarMap.containsKey ((s.heap ++ [curVars s]).getD s.heap.length []) "scale" = true
        rw [getD_concat_self]
        exact hinv.1
  | .set name e =>
    rcases hx : evalExpr e (curVars s) s.rs with ⟨out, rs2⟩
    match out with
    | .ok v =>
      have hstate : (execCommand (.set name e) s).state
          = { s with heap := s.heap.set 0 ((curVars s).set name v), rs := rs2 } := by
        simp [execCommand, hx, ExecOut.state]
      rw [hstate]
      constructor
      · show VarMap.containsKey ((s.heap.set 0 ((curVars s).set name v)).headD []) "scale" = true
        rw [hm0, hcur]
        show VarMap.containsKey (VarMap.set m0 name v) "scale" = true
        exact VarMap.containsKey_set m0 name v "scale" (by rw [← hcur]; exact hinv.1)
      · intro st hst
        have hi := hinv.2 st hst
        refine ⟨by simpa using hi.1, ?_⟩
        rcases Nat.eq_zero_or_pos st.ParamsRef with h0 | hpos
        · rw [h0]
          rw [hm0, hcur]
          show VarMap.containsKey (VarMap.set m0 name v) "scale" = true
          refine VarMap.containsKey_set m0 name v "scale" ?_
          have := hi.2
          rw [h0, hm0] at this
          exact this
        · rw [getD_set_zero s.heap _ _ hpos]
          exact hi.2
    | .err m =>
      have hstate : (execCommand (.set name e) s).state = { s with rs := rs2 } := by
        simp [execCommand, hx, ExecOut.state]
      rw [hstate]
      exact ⟨hinv.1, fun st hst => hinv.2 st hst⟩
    | .panicked m =>
      have hstate : (execCommand (.set name e) s).state = { s with rs := rs2 } := by
        simp [execCommand, hx, ExecOut.state]
      rw [hstate]
      exact ⟨hinv.1, fun st hst => hinv.2 st hst⟩

lemma runCommands_scaleInv (cmds : List Command) : ∀ (s : ExecState), scaleInv s →
    scaleInv (runCommands cmds s).state := by
  induction cmds with
  | nil => intro s h; exact h
  | cons c cs ih =>
    intro s h
    have h1 := execCommand_scaleInv c s h
    rcases hx : execCommand c s with s2 | ⟨m, s2⟩ | ⟨m, s2⟩
    · have hrun : runCommands (c :: cs) s = runCommands cs s2 := by
        show (match execCommand c s with
              | .ok s3 => runCommands cs s3
              | other => other) = _
        rw [hx]
      rw [hrun]
      exact ih s2 (by rw [hx] at h1; exact h1)
    · have hrun : runCommands (c :: cs) s = .fail m s2 := by
        show (match execCommand c s with
              | .ok s3 => runCommands cs s3
              | other => other) = _
        rw [hx]
      rw [hrun]
      rw [hx] at h1
      exact h1
    · have hrun : runCommands (c :: cs) s = .panicked m s2 := by
        show (match execCommand c s with
              | .ok s3 => runCommands cs s3
              | other => other) = _
        rw [hx]
      rw [hrun]
      rw [hx] at h1
      exact h1

/-- Claim C6: for every command list and every successfully produced unit
of work, each statement's params map contains the key `scale` — it is
pre-defined from the workload's scale before any command runs, map
assignment never removes keys, and every params copy is taken from
`ctx.Vars`. -/
theorem c6_params_contain_scale (cmds : List Command) (scale : Int) (ro : Bool)
    (rand grand : Rng) (s2 : ExecState)
    (h : clientNext cmds scale ro rand grand = .ok s2) :
    ∀ st ∈ s2.uow.Statements, VarMap.containsKey (resolveParams s2 st) "scale" = true := by
  intro st hst
  have hinit : scaleInv (initState scale ro rand grand) := by
    constructor
    · rfl
    · intro st2 hst2
      simp [initState] at hst2
  have hrun := runCommands_scaleInv cmds (initState scale ro rand grand) hinit
  have hs2 : (runCommands cmds (initState scale ro rand grand)).state = s2 := by
    show (clientNext cmds scale ro rand grand).state = s2
    rw [h]
    rfl
  rw [hs2] at hrun
  exact (hrun.2 st hst).2

/-- Witness for C6: a client at scale 3 running `\set x 1` then a query;
the produced statement's params contain `scale`. -/
theorem c6_witness :
    clientNext [.set "x" (.intE 1), .query "RETURN 1"] 3 false ⟨0⟩ ⟨0⟩
      = .ok ⟨[[("scale", Value.int 3), ("x", Value.int 1)],
              [("scale", Value.int 3), ("x", Value.int 1)]],
             ⟨⟨0⟩, ⟨0⟩⟩,
             ⟨false, [⟨"RETURN 1", 1⟩]⟩⟩ ∧
    ∀ st ∈ ([⟨"RETURN 1", 1⟩] : List Statement),
      VarMap.containsKey
        (resolveParams ⟨[[("scale", Value.int 3), ("x", Value.int 1)],
                         [("scale", Value.int 3), ("x", Value.int 1)]],
                        ⟨⟨0⟩, ⟨0⟩⟩,
                        ⟨false, [⟨"RETURN 1", 1⟩]⟩⟩ st) "scale" = true :=
  ⟨by decide,
   c6_params_contain_scale [.set "x" (.intE 1), .query "RETURN 1"] 3 false ⟨0⟩ ⟨0⟩
     ⟨[[("scale", Value.int 3), ("x", Value.int 1)],
       [("scale", Value.int 3), ("x", Value.int 1)]],
      ⟨⟨0⟩, ⟨0⟩⟩,
      ⟨false, [⟨"RETURN 1", 1⟩]⟩⟩
     (by decide)⟩


/-! ## `random` semantics (C7, C10) -/

end Neobench
